import Mathlib

/-!
Verification of the reference-resolution core of qtjsonschema
(src/qtjsonschema/tools.py and the context-construction prefix of
create_widget in src/qtjsonschema/widgets.py / w2.py).

Python exception classes raised by the code are modelled by the
PyError type below.  The specification uses abstract names for them:
its ResourceError is the ValueError raised by the loaders, its
ConsistencyError is the AssertionError raised by the fragment assert in
load_uri, and its LookupError covers the Python KeyError / IndexError
(both subclasses of Python's built-in LookupError).

The external uritools library functions urisplit / uricompose / urijoin
are modelled from the interface the spec names in section 6:
RFC 3986 appendix-B splitting, component concatenation, and
section 5.2 reference resolution, operating on lists of characters.
-/

/-- Python exception classes that the modelled code can raise. -/
inductive PyError where
  | keyError
  | indexError
  | typeError
  | valueError
  | assertionError
deriving DecidableEq, Repr

/-- True for the Python exception classes that are subclasses of the
built-in LookupError (KeyError and IndexError). -/
def PyError.isLookupError : PyError → Bool
  | .keyError => true
  | .indexError => true
  | _ => false

/-- The JSON data model (the values the json module produces). -/
inductive JSON where
  | null
  | bool (b : Bool)
  | num (n : Int)
  | str (s : String)
  | arr (elems : List JSON)
  | obj (entries : List (String × JSON))
deriving Repr

/-- Lookup of a key in the entry list of a JSON object, first match wins
(parsed JSON objects have unique keys). -/
def jsonLookup (k : String) : List (String × JSON) → Option JSON
  | [] => none
  | (k2, v) :: rest => if k2 = k then some v else jsonLookup k rest

/-- Python subscription obj[elem] with a string subscript: a dict indexes
by key (KeyError when absent); a list, a string or any other value
raises TypeError when subscripted with a string. -/
def JSON.getItemStr : JSON → String → Except PyError JSON
  | .obj entries, k =>
      match jsonLookup k entries with
      | some v => .ok v
      | none => .error .keyError
  | _, _ => .error .typeError

/-- Python str.split with a single-character separator: "a/b".split("/")
is [a, b], "".split("/") is [the empty string]. -/
def splitOnChar (sep : Char) : List Char → List (List Char)
  | [] => [[]]
  | c :: rest =>
    match splitOnChar sep rest with
    | [] => [[]]
    | h :: t => if c = sep then [] :: h :: t else (c :: h) :: t

/-- Python str.replace on character lists: scan left to right, replacing
non-overlapping occurrences of pat; the scan resumes after the
replacement.  The loop consumes at least one character per step, so the
input length is enough fuel; the fuel makes the recursion structural.
(Never used with an empty pattern here; an empty pattern leaves the
string unchanged.) -/
def pyReplaceFuel (pat rep : List Char) : Nat → List Char → List Char
  | 0, s => s
  | _ + 1, [] => []
  | fuel + 1, c :: rest =>
    if pat ≠ [] ∧ pat.isPrefixOf (c :: rest) then
      rep ++ pyReplaceFuel pat rep fuel ((c :: rest).drop pat.length)
    else
      c :: pyReplaceFuel pat rep fuel rest

def pyReplaceCh (pat rep s : List Char) : List Char :=
  pyReplaceFuel pat rep s.length s

/-- Python str.replace lifted to String. -/
def pyReplace (s pat rep : String) : String :=
  ⟨pyReplaceCh pat.data rep.data s.data⟩

/-- Escape decoding of one JSON-Pointer token, exactly as written in
Reference.__init__: e.replace(tilde-one, slash).replace(tilde-zero, tilde). -/
def decodeToken (e : String) : String :=
  pyReplace (pyReplace e "~1" "/") "~0" "~"

/-- The Reference class of tools.py: an ordered list of decoded tokens. -/
structure Reference where
  elements : List String
deriving Repr

/-- Reference.__init__: split the pointer string on slashes and decode
each token. -/
def Reference.ofString (uri : String) : Reference :=
  ⟨(splitOnChar '/' uri.data).map (fun t => decodeToken ⟨t⟩)⟩

/-- Reference.extract: successively subscript the document by each
token (the loop for elem in self.elements: obj = obj[elem]). -/
def Reference.extract (r : Reference) (obj : JSON) : Except PyError JSON :=
  go r.elements obj
where
  go : List String → JSON → Except PyError JSON
  | [], obj => .ok obj
  | e :: rest, obj =>
    match obj.getItemStr e with
    | .ok next => go rest next
    | .error err => .error err

/-- Characters that terminate the scheme candidate in the RFC 3986
appendix-B grammar. -/
def notSchemeDelim (c : Char) : Bool :=
  !(c = ':' || c = '/' || c = '?' || c = '#')

/-- Characters that terminate the authority component. -/
def notAuthDelim (c : Char) : Bool :=
  !(c = '/' || c = '?' || c = '#')

/-- Characters that terminate the path component. -/
def notPathDelim (c : Char) : Bool :=
  !(c = '?' || c = '#')

/-- Result of urisplit: the five URI components of RFC 3986 appendix B.
Missing components are none; an empty present component is some []. -/
structure URISplit where
  scheme : Option (List Char)
  authority : Option (List Char)
  path : List Char
  query : Option (List Char)
  fragment : Option (List Char)
deriving DecidableEq, Repr

/-- Scheme stage of the appendix-B grammar: a non-empty run of
non-delimiter characters followed by a colon. -/
def splitScheme (s : List Char) : Option (List Char) × List Char :=
  match s.dropWhile notSchemeDelim with
  | ':' :: rest =>
      if s.takeWhile notSchemeDelim = [] then (none, s)
      else (some (s.takeWhile notSchemeDelim), rest)
  | _ => (none, s)

/-- Authority stage: present exactly when the remaining input starts
with two slashes. -/
def splitAuthority : List Char → Option (List Char) × List Char
  | '/' :: '/' :: rest =>
      (some (rest.takeWhile notAuthDelim), rest.dropWhile notAuthDelim)
  | s => (none, s)

/-- Query stage: present exactly when the remaining input starts with a
question mark. -/
def splitQuery : List Char → Option (List Char) × List Char
  | '?' :: rest =>
      (some (rest.takeWhile (fun c => !(c = '#'))), rest.dropWhile (fun c => !(c = '#')))
  | s => (none, s)

/-- Fragment stage: everything after a leading hash. -/
def splitFragment : List Char → Option (List Char)
  | '#' :: rest => some rest
  | _ => none

/-- Model of uritools.urisplit: RFC 3986 appendix-B decomposition of a
URI reference into its five components. -/
def urisplit (s : List Char) : URISplit :=
  let (scheme, s1) := splitScheme s
  let (authority, s2) := splitAuthority s1
  let path := s2.takeWhile notPathDelim
  let s3 := s2.dropWhile notPathDelim
  let (query, s4) := splitQuery s3
  let fragment := splitFragment s4
  ⟨scheme, authority, path, query, fragment⟩

/-- Model of uritools.uricompose on already-encoded components:
scheme colon, double slash before the authority, then path, question
mark before the query, hash before the fragment. -/
def uricompose (scheme authority : Option (List Char)) (path : List Char)
    (query fragment : Option (List Char)) : List Char :=
  (match scheme with | some s => s ++ [':'] | none => []) ++
  (match authority with | some a => '/' :: '/' :: a | none => []) ++
  path ++
  (match query with | some q => '?' :: q | none => []) ++
  (match fragment with | some f => '#' :: f | none => [])

/-- Fragment-stripped location of a URI, as computed by load_uri:
uricompose(result.scheme, result.authority, result.path). -/
def locationOf (r : URISplit) : List Char :=
  uricompose r.scheme r.authority r.path none none

/-- Path prefix up to and including the last slash (empty when the path
has no slash); used by the RFC 3986 merge operation. -/
def upToLastSlash (p : List Char) : List Char :=
  ((p.reverse.dropWhile (fun c => !(c = '/')))).reverse

/-- RFC 3986 section 5.2.3: merge a relative-path reference with the
base path. -/
def mergePaths (baseAuthority : Option (List Char)) (basePath refPath : List Char) :
    List Char :=
  if baseAuthority.isSome ∧ basePath = [] then '/' :: refPath
  else upToLastSlash basePath ++ refPath

/-- Remove the last segment (and its preceding slash, if any) from the
output buffer of remove_dot_segments. -/
def dropLastSegment (out : List Char) : List Char :=
  ((out.reverse.dropWhile (fun c => !(c = '/'))).drop 1).reverse

/-- RFC 3986 section 5.2.4 remove_dot_segments, written as the standard
two-buffer loop.  Every step strictly shortens the input buffer, so the
input length is enough fuel; the fuel makes the recursion structural. -/
def removeDotSegmentsFuel : Nat → List Char → List Char → List Char
  | 0, _, out => out
  | _ + 1, [], out => out
  | fuel + 1, '.' :: '.' :: '/' :: rest, out => removeDotSegmentsFuel fuel rest out
  | fuel + 1, '.' :: '/' :: rest, out => removeDotSegmentsFuel fuel rest out
  | fuel + 1, '/' :: '.' :: '/' :: rest, out => removeDotSegmentsFuel fuel ('/' :: rest) out
  | fuel + 1, ['/', '.'], out => removeDotSegmentsFuel fuel ['/'] out
  | fuel + 1, '/' :: '.' :: '.' :: '/' :: rest, out =>
      removeDotSegmentsFuel fuel ('/' :: rest) (dropLastSegment out)
  | fuel + 1, ['/', '.', '.'], out => removeDotSegmentsFuel fuel ['/'] (dropLastSegment out)
  | _ + 1, ['.'], out => out
  | _ + 1, ['.', '.'], out => out
  | fuel + 1, c :: rest, out =>
      removeDotSegmentsFuel fuel (rest.dropWhile (fun c2 => !(c2 = '/')))
        (out ++ c :: rest.takeWhile (fun c2 => !(c2 = '/')))

def removeDotSegments (p : List Char) : List Char :=
  removeDotSegmentsFuel p.length p []

/-- RFC 3986 section 5.2.2 transform-references, with the non-strict
behaviour of uritools.urijoin: a reference scheme equal to the base
scheme is treated as absent. -/
def transformReference (base ref : URISplit) : URISplit :=
  let refScheme := if ref.scheme = base.scheme then none else ref.scheme
  match refScheme with
  | some s => ⟨some s, ref.authority, removeDotSegments ref.path, ref.query, ref.fragment⟩
  | none =>
    match ref.authority with
    | some a => ⟨base.scheme, some a, removeDotSegments ref.path, ref.query, ref.fragment⟩
    | none =>
      if ref.path = [] then
        ⟨base.scheme, base.authority, base.path,
          (match ref.query with | some q => some q | none => base.query), ref.fragment⟩
      else if ref.path.head? = some '/' then
        ⟨base.scheme, base.authority, removeDotSegments ref.path, ref.query, ref.fragment⟩
      else
        ⟨base.scheme, base.authority,
          removeDotSegments (mergePaths base.authority base.path ref.path),
          ref.query, ref.fragment⟩

/-- Model of uritools.urijoin: split both arguments, transform the
reference against the base, recompose. -/
def urijoin (base ref : List Char) : List Char :=
  let b := urisplit base
  let r := urisplit ref
  let t := transformReference b r
  uricompose t.scheme t.authority t.path t.query t.fragment

example :
    urisplit "http://h/p/q?x=1#/f".data
      = ⟨some "http".data, some "h".data, "/p/q".data, some "x=1".data, some "/f".data⟩ := by
  decide

example : urisplit "#".data = ⟨none, none, [], none, some []⟩ := by decide

example : urisplit "p#a".data = ⟨none, none, "p".data, none, some "a".data⟩ := by decide

example : urijoin "http://h/a/b".data "c".data = "http://h/a/c".data := by decide

example : urijoin "http://h/a/b#f".data "".data = "http://h/a/b".data := by decide

example : decodeToken "~01" = "~1" := by decide

example : decodeToken "b~1c" = "b/c" := by decide

example : (Reference.ofString "a/b~1c/0").elements = ["a", "b/c", "0"] := by decide

/-- The closed set of ResourceLoader variants of tools.py.  The HTTP
loader's transport (requests.get(...).json()) and the file loader's
filesystem read plus JSON parse (open(path); json.load) are external
effects, modelled as function parameters carried by the variant; the
file loader also carries the platform.system() answer. -/
inductive ResourceLoader where
  | http (get : String → Except PyError JSON)
  | file (system : String) (readJson : String → Except PyError JSON)
  | document (document : JSON) (location : Option String)

/-- Python truthiness of the authority component: None and the empty
string are falsy. -/
def authorityTruthy : Option (List Char) → Bool
  | some a => !a.isEmpty
  | none => false

/-- FileResourceLoader.load_resource: reject URIs with a truthy
authority, strip the first path character on Windows, then read and
parse the file at the path. -/
def fileLoadResource (system : String) (readJson : String → Except PyError JSON)
    (uri : String) : Except PyError JSON :=
  let result := urisplit uri.data
  if authorityTruthy result.authority then .error .valueError
  else
    let path := result.path
    let path2 := if system = "Windows" then path.drop 1 else path
    readJson ⟨path2⟩

/-- load_resource of each loader variant.  DocumentLoader.load_resource
raises ValueError unless the requested URI equals the bound location
(comparison of a string against a possibly-None location, as in
Python's uri != self.location). -/
def ResourceLoader.load_resource : ResourceLoader → String → Except PyError JSON
  | .http get, uri => get uri
  | .file system readJson, uri => fileLoadResource system readJson uri
  | .document doc loc, uri =>
      if (some uri : Option String) ≠ loc then .error .valueError else .ok doc

/-- A loader object: the loader value together with an object identity,
which is what lru_cache keys on for the loader argument. -/
structure LoaderInst where
  id : Nat
  loader : ResourceLoader

/-- The URILoaderRegistry state: the scheme_to_loader dict, as an
association list (the scheme key is None for scheme-less URIs). -/
structure URILoaderRegistry where
  scheme_to_loader : List (Option String × LoaderInst)

/-- Python dict assignment d[k] = v: overwrite the existing binding or
append a new one. -/
def assocUpdate (k : Option String) (v : LoaderInst) :
    List (Option String × LoaderInst) → List (Option String × LoaderInst)
  | [] => [(k, v)]
  | (k2, v2) :: rest =>
      if k2 = k then (k, v) :: rest else (k2, v2) :: assocUpdate k v rest

/-- URILoaderRegistry.register_for_scheme. -/
def URILoaderRegistry.register_for_scheme (reg : URILoaderRegistry)
    (scheme : Option String) (l : LoaderInst) : URILoaderRegistry :=
  ⟨assocUpdate scheme l reg.scheme_to_loader⟩

/-- Python dict lookup d[k], returning none where Python raises
KeyError. -/
def lookupScheme (reg : URILoaderRegistry) (s : Option String) : Option LoaderInst :=
  go reg.scheme_to_loader
where
  go : List (Option String × LoaderInst) → Option LoaderInst
  | [] => none
  | (k, v) :: rest => if k = s then some v else go rest

/-- One lru_cache entry: the (loader identity, uri) key with the cached
document. -/
structure CacheEntry where
  key : Nat × String
  val : JSON

/-- The lru_cache state of the cached load_resource_from_loader, most
recently used entry first. -/
def CacheState := List CacheEntry

def cacheLookup : CacheState → Nat × String → Option JSON
  | [], _ => none
  | e :: rest, k => if e.key = k then some e.val else cacheLookup rest k

def cacheErase (k : Nat × String) : CacheState → CacheState
  | [] => []
  | e :: rest => if e.key = k then cacheErase k rest else e :: cacheErase k rest

/-- The lru_cache-wrapped load_resource_from_loader of the cached
registry class: on a hit return the cached document (refreshing its
recency) without invoking the loader; on a miss invoke the loader,
caching the result only when it succeeds (a raised exception is never
cached), evicting beyond the capacity.  Returns the result, the new
cache state and the number of underlying load_resource invocations. -/
def cachedLoadFromLoader (cap : Nat) (st : CacheState) (l : LoaderInst) (uri : String) :
    Except PyError JSON × CacheState × Nat :=
  match cacheLookup st (l.id, uri) with
  | some v => (.ok v, ⟨(l.id, uri), v⟩ :: cacheErase (l.id, uri) st, 0)
  | none =>
    match l.loader.load_resource uri with
    | .ok v => (.ok v, (⟨(l.id, uri), v⟩ :: st).take cap, 1)
    | .error e => (.error e, st, 1)

/-- Fragment handling at the end of load_uri: nothing for an absent or
empty (falsy) fragment; for a truthy fragment, assert the leading
slash (AssertionError otherwise) and extract the pointer built from
the fragment with its leading slash removed. -/
def finishLoad (fragment : Option (List Char)) (resource : JSON) :
    Except PyError JSON :=
  match fragment with
  | none => .ok resource
  | some f =>
    if f.isEmpty then .ok resource
    else if f.head? = some '/' then
      (Reference.ofString ⟨f.drop 1⟩).extract resource
    else .error .assertionError

/-- Scheme key under which load_uri looks its loader up: the scheme
component as a string, or None for scheme-less URIs. -/
def schemeKey (r : URISplit) : Option String :=
  r.scheme.map (fun s => (⟨s⟩ : String))

/-- load_uri of the cached registry class: split the URI, recompose the
fragment-stripped location, look the scheme up in scheme_to_loader
(KeyError when unregistered), load the location through the cache,
then handle the fragment.  Returns the result, the new cache state and
the number of underlying load_resource invocations. -/
def loadUri (cap : Nat) (reg : URILoaderRegistry) (st : CacheState) (uri : String) :
    Except PyError JSON × CacheState × Nat :=
  let result := urisplit uri.data
  let location : String := ⟨locationOf result⟩
  match lookupScheme reg (schemeKey result) with
  | none => (.error .keyError, st, 0)
  | some loader =>
    match cachedLoadFromLoader cap st loader location with
    | (.ok resource, st2, n) => (finishLoad result.fragment resource, st2, n)
    | (.error e, st2, n) => (.error e, st2, n)

/-- The class value returned by create_cached_uri_loader_registry: a
registry class whose load_resource_from_loader is wrapped in
lru_cache(1024).  The cache_size parameter is not mentioned in the
class body. -/
structure CachedURILoaderRegistryClass where
  cacheCapacity : Nat
deriving DecidableEq, Repr

def create_cached_uri_loader_registry (cache_size : Nat) : CachedURILoaderRegistryClass :=
  ⟨1024⟩

/-- The Context class of tools.py: a scope URI and the shared registry. -/
structure Context where
  scope_uri : String
  registry : URILoaderRegistry

/-- Context.follow_uri: a new Context whose scope is the urijoin of the
current scope with the followed URI and whose registry is the same. -/
def Context.follow_uri (ctx : Context) (uri : String) : Context :=
  ⟨⟨urijoin ctx.scope_uri.data uri.data⟩, ctx.registry⟩

/-- Context.dereference resolves the reference against the scope and
loads it through the registry (shown here against the cached registry
class, which is the only registry the repository constructs). -/
def Context.dereference (cap : Nat) (ctx : Context) (st : CacheState) (uri : String) :
    Except PyError JSON × CacheState × Nat :=
  loadUri cap ctx.registry st ⟨urijoin ctx.scope_uri.data uri.data⟩

/-- Context-construction prefix of create_widget (widgets.py lines
526-547, identical in w2.py): build the cached registry class, register
one shared HTTP loader for http and https, a file loader for file and a
DocumentLoader bound to the schema and its URI for the no-scheme key,
and scope the root Context at schema_uri or the sentinel (Python
schema_uri or hash, where None and the empty string are falsy). -/
def create_widget_context (schema : JSON) (schema_uri : Option String)
    (httpGet : String → Except PyError JSON) (system : String)
    (fileRead : String → Except PyError JSON) :
    CachedURILoaderRegistryClass × URILoaderRegistry × Context :=
  let registry_class := create_cached_uri_loader_registry 1024
  let http_loader : LoaderInst := ⟨0, .http httpGet⟩
  let file_resource_loader : LoaderInst := ⟨1, .file system fileRead⟩
  let document_loader : LoaderInst := ⟨2, .document schema schema_uri⟩
  let registry : URILoaderRegistry := ⟨[]⟩
  let registry := registry.register_for_scheme (some "http") http_loader
  let registry := registry.register_for_scheme (some "https") http_loader
  let registry := registry.register_for_scheme (some "file") file_resource_loader
  let registry := registry.register_for_scheme none document_loader
  let scope : String :=
    match schema_uri with
    | some s => if s = "" then "#" else s
    | none => "#"
  (registry_class, registry, ⟨scope, registry⟩)

/-- The document of the C1 pointer-extraction example:
the mapping a maps to a mapping whose key b-slash-c holds the
sequence [42, 1]. -/
def pointerExampleDocument : JSON :=
  .obj [("a", .obj [("b/c", .arr [.num 42, .num 1])])]

/-- Claim C1 (code bug): the tokens of pointer /a/b~1c/0 parse and
decode correctly to a, b-slash-c, 0, but Reference.extract subscripts
every container with the literal string token, so reaching the
sequence [42, 1] with token 0 raises TypeError (a Python list cannot be
subscripted with a string); the extraction therefore does not return
42, and no sequence token is ever parsed as an integer index. -/
theorem reference_extract_sequence_raises_type_error :
    (Reference.ofString "a/b~1c/0").elements = ["a", "b/c", "0"] ∧
    (Reference.ofString "a/b~1c/0").extract pointerExampleDocument
      = .error .typeError ∧
    (Reference.ofString "a/b~1c/0").extract pointerExampleDocument
      ≠ .ok (.num 42) := by
  refine ⟨by decide, rfl, ?_⟩
  intro h
  rw [show (Reference.ofString "a/b~1c/0").extract pointerExampleDocument
        = .error .typeError from rfl] at h
  exact Except.noConfusion h

/-- Claim C2: a DocumentLoader bound to document D and location L
returns exactly D for load_resource at L, and raises ValueError (the
spec's ResourceError) for every other location. -/
theorem document_loader_bound_location (D : JSON) (L L2 : String) (h : L2 ≠ L) :
    (ResourceLoader.document D (some L)).load_resource L = .ok D ∧
    (ResourceLoader.document D (some L)).load_resource L2 = .error .valueError := by
  constructor
  · simp [ResourceLoader.load_resource]
  · simp [ResourceLoader.load_resource, h]

theorem document_loader_bound_location_witness :
    ("other" : String) ≠ "a" ∧
    (ResourceLoader.document (.num 7) (some "a")).load_resource "a" = .ok (.num 7) ∧
    (ResourceLoader.document (.num 7) (some "a")).load_resource "other"
      = .error .valueError := by
  have h : ("other" : String) ≠ "a" := by decide
  exact ⟨h, document_loader_bound_location (.num 7) "a" "other" h⟩

/-- Claim C5: Reference construction splits the pointer on slashes and
decodes each token by replacing tilde-one with slash first and
tilde-zero with tilde second; under that order the token tilde-zero-one
decodes to the literal key tilde-one, the token tilde-one decodes to a
slash and the token tilde-zero decodes to a tilde (whereas the reversed
replacement order would corrupt tilde-zero-one into a slash). -/
theorem reference_token_decoding :
    (∀ s : String, (Reference.ofString s).elements
        = (splitOnChar '/' s.data).map (fun t => decodeToken ⟨t⟩)) ∧
    (∀ e : String, decodeToken e = pyReplace (pyReplace e "~1" "/") "~0" "~") ∧
    decodeToken "~01" = "~1" ∧
    decodeToken "~1" = "/" ∧
    decodeToken "~0" = "~" ∧
    pyReplace (pyReplace "~01" "~0" "~") "~1" "/" = "/" := by
  exact ⟨fun s => rfl, fun e => rfl, by decide, by decide, by decide, by decide⟩

/-- Claim C6: load_uri on a URI whose scheme has no registered loader
raises KeyError (a subclass of Python's LookupError), touches neither
the cache nor any loader, and never succeeds with a default. -/
theorem load_uri_unregistered_scheme (cap : Nat) (reg : URILoaderRegistry)
    (st : CacheState) (uri : String)
    (h : lookupScheme reg (schemeKey (urisplit uri.data)) = none) :
    loadUri cap reg st uri = (.error .keyError, st, 0) ∧
    PyError.keyError.isLookupError = true ∧
    ∀ d : JSON, (loadUri cap reg st uri).1 ≠ .ok d := by
  have hmain : loadUri cap reg st uri = (.error .keyError, st, 0) := by
    unfold loadUri
    simp only [h]
  refine ⟨hmain, rfl, ?_⟩
  intro d hcontra
  rw [hmain] at hcontra
  exact Except.noConfusion hcontra

theorem load_uri_unregistered_scheme_witness :
    lookupScheme (⟨[(some "http", ⟨0, .document .null none⟩)]⟩ : URILoaderRegistry)
        (schemeKey (urisplit "ftp://x".data)) = none ∧
    loadUri 1024 ⟨[(some "http", ⟨0, .document .null none⟩)]⟩ [] "ftp://x"
      = (.error .keyError, [], 0) := by
  have h : lookupScheme (⟨[(some "http", ⟨0, .document .null none⟩)]⟩ : URILoaderRegistry)
      (schemeKey (urisplit "ftp://x".data)) = none := rfl
  exact ⟨h, (load_uri_unregistered_scheme 1024 ⟨[(some "http", ⟨0, .document .null none⟩)]⟩
    [] "ftp://x" h).1⟩

/-- Claim C10: create_cached_uri_loader_registry ignores its cache_size
argument; every returned registry class carries the fixed lru_cache
capacity 1024, so registry classes created with different cache_size
values are equal and cache identically. -/
theorem cache_size_parameter_ignored :
    (∀ n : Nat, (create_cached_uri_loader_registry n).cacheCapacity = 1024) ∧
    (∀ n m : Nat,
        create_cached_uri_loader_registry n = create_cached_uri_loader_registry m) ∧
    (∀ (n m : Nat) (reg : URILoaderRegistry) (st : CacheState) (uri : String),
        loadUri (create_cached_uri_loader_registry n).cacheCapacity reg st uri
          = loadUri (create_cached_uri_loader_registry m).cacheCapacity reg st uri) := by
  exact ⟨fun n => rfl, fun n m => rfl, fun n m reg st uri => rfl⟩

/-- Claim C4: the context-construction prefix of create_widget builds a
cache-wrapped registry class of capacity 1024 and a registry holding
exactly four bindings, with http and https bound to one and the same
HTTP loader object, file to a file loader, and the no-scheme key to a
DocumentLoader bound to the schema and its URI; the returned root
Context shares that registry and is scoped at schema_uri, or the hash
sentinel when no (or an empty, hence falsy) location is supplied. -/
theorem create_widget_context_shape (schema : JSON) (loc : Option String)
    (g : String → Except PyError JSON) (sys : String)
    (fr : String → Except PyError JSON) :
    (create_widget_context schema loc g sys fr).1 = ⟨1024⟩ ∧
    (create_widget_context schema loc g sys fr).2.1.scheme_to_loader =
      [(some "http", ⟨0, .http g⟩), (some "https", ⟨0, .http g⟩),
       (some "file", ⟨1, .file sys fr⟩), (none, ⟨2, .document schema loc⟩)] ∧
    (create_widget_context schema loc g sys fr).2.2.registry
      = (create_widget_context schema loc g sys fr).2.1 ∧
    (loc = none → (create_widget_context schema loc g sys fr).2.2.scope_uri = "#") ∧
    (∀ s : String, loc = some s → s ≠ "" →
        (create_widget_context schema loc g sys fr).2.2.scope_uri = s) ∧
    (loc = some "" → (create_widget_context schema loc g sys fr).2.2.scope_uri = "#") := by
  refine ⟨rfl, rfl, rfl, ?_, ?_, ?_⟩
  · intro hnone
    subst hnone
    rfl
  · intro s hsome hne
    subst hsome
    simp [create_widget_context, hne]
  · intro hempty
    subst hempty
    rfl

theorem create_widget_context_shape_witness :
    ((none : Option String) = none →
      (create_widget_context .null none (fun _ => .ok .null) "Linux"
          (fun _ => .ok .null)).2.2.scope_uri = "#") ∧
    (create_widget_context .null (some "file:///s.json") (fun _ => .ok .null) "Linux"
        (fun _ => .ok .null)).2.2.scope_uri = "file:///s.json" := by
  constructor
  · exact (create_widget_context_shape .null none (fun _ => .ok .null) "Linux"
      (fun _ => .ok .null)).2.2.2.1
  · exact (create_widget_context_shape .null (some "file:///s.json")
      (fun _ => .ok .null) "Linux" (fun _ => .ok .null)).2.2.2.2.1 "file:///s.json" rfl
      (by decide)

/-- Claim C8: FileResourceLoader.load_resource raises ValueError (the
spec's ResourceError with the network-paths-unsupported message) for
every location with a truthy (non-empty) authority component; with no
or an empty authority it reads and parses the file at the split path,
stripping exactly the one leading path separator on the Windows
platform (whose file-URI convention otherwise yields a doubled root
indicator) and leaving the path untouched on every other platform. -/
theorem file_loader_authority_and_path (sys : String)
    (rd : String → Except PyError JSON) (uri : String) :
    (authorityTruthy (urisplit uri.data).authority = true →
        fileLoadResource sys rd uri = .error .valueError) ∧
    (authorityTruthy (urisplit uri.data).authority = false → sys ≠ "Windows" →
        fileLoadResource sys rd uri = rd ⟨(urisplit uri.data).path⟩) ∧
    (authorityTruthy (urisplit uri.data).authority = false → sys = "Windows" →
        ∀ rest : List Char, (urisplit uri.data).path = '/' :: rest →
        fileLoadResource sys rd uri = rd ⟨rest⟩) := by
  refine ⟨?_, ?_, ?_⟩
  · intro h
    simp [fileLoadResource, h]
  · intro h hsys
    simp [fileLoadResource, h, hsys]
  · intro h hsys rest hpath
    simp [fileLoadResource, h, hsys, hpath]

theorem file_loader_authority_and_path_witness :
    authorityTruthy (urisplit "file://host/x".data).authority = true ∧
    fileLoadResource "Linux" (fun p => .ok (.str p)) "file://host/x"
      = .error .valueError ∧
    authorityTruthy (urisplit "file:///etc/s.json".data).authority = false ∧
    fileLoadResource "Linux" (fun p => .ok (.str p)) "file:///etc/s.json"
      = (fun p => (.ok (.str p) : Except PyError JSON)) "/etc/s.json" ∧
    fileLoadResource "Windows" (fun p => .ok (.str p)) "file:///C:/t.json"
      = (fun p => (.ok (.str p) : Except PyError JSON)) "C:/t.json" := by
  refine ⟨by decide, ?_, by decide, ?_, ?_⟩
  · exact (file_loader_authority_and_path "Linux" (fun p => .ok (.str p))
      "file://host/x").1 (by decide)
  · exact (file_loader_authority_and_path "Linux" (fun p => .ok (.str p))
      "file:///etc/s.json").2.1 (by decide) (by decide)
  · exact (file_loader_authority_and_path "Windows" (fun p => .ok (.str p))
      "file:///C:/t.json").2.2 (by decide) rfl ("C:/t.json".data) (by decide)

/-- Claim C7 counterexample: the URI zz colon x hash bad carries the
non-empty fragment bad, which does not start with a slash, yet load_uri
on a registry without a zz loader raises KeyError (the scheme lookup
precedes the fragment assert in load_uri), not AssertionError (the
spec's ConsistencyError); so the claim does not hold for every URI with
such a fragment. -/
theorem load_uri_bad_fragment_keyerror_first :
    (urisplit "zz:x#bad".data).fragment = some "bad".data ∧
    (loadUri 1024 ⟨[]⟩ [] "zz:x#bad").1 = .error .keyError ∧
    (loadUri 1024 ⟨[]⟩ [] "zz:x#bad").1 ≠ .error .assertionError := by
  refine ⟨by decide, rfl, ?_⟩
  intro h
  rw [show (loadUri 1024 ⟨[]⟩ [] "zz:x#bad").1 = .error .keyError from rfl] at h
  exact absurd (Except.error.inj h) (by decide)

/-- Claim C7 amended: on a URI whose scheme is registered and whose
fragment-stripped location loads successfully, a truthy fragment not
starting with a slash makes load_uri raise AssertionError (the spec's
ConsistencyError), whatever document was loaded; no pointer extraction
is attempted on such a fragment. -/
theorem load_uri_nonslash_fragment_assertion (cap : Nat) (reg : URILoaderRegistry)
    (st : CacheState) (uri : String) (l : LoaderInst) (doc : JSON) (f : List Char)
    (hreg : lookupScheme reg (schemeKey (urisplit uri.data)) = some l)
    (hfrag : (urisplit uri.data).fragment = some f)
    (hne : f ≠ [])
    (hnoslash : f.head? ≠ some '/')
    (hok : (cachedLoadFromLoader cap st l ⟨locationOf (urisplit uri.data)⟩).1
            = .ok doc) :
    (loadUri cap reg st uri).1 = .error .assertionError := by
  unfold loadUri
  simp only [hreg]
  rcases hc : cachedLoadFromLoader cap st l ⟨locationOf (urisplit uri.data)⟩
    with ⟨res, st2, n⟩
  rw [hc] at hok
  simp only at hok
  subst hok
  simp only [hfrag, finishLoad]
  rw [if_neg (by simp [List.isEmpty_iff]; exact hne), if_neg hnoslash]

theorem load_uri_nonslash_fragment_assertion_witness :
    lookupScheme (⟨[(some "zz", ⟨0, .document (.num 1) (some "zz:x")⟩)]⟩ :
        URILoaderRegistry) (schemeKey (urisplit "zz:x#bad".data))
      = some ⟨0, .document (.num 1) (some "zz:x")⟩ ∧
    (urisplit "zz:x#bad".data).fragment = some "bad".data ∧
    ("bad".data : List Char) ≠ [] ∧
    ("bad".data : List Char).head? ≠ some '/' ∧
    (cachedLoadFromLoader 1024 [] ⟨0, .document (.num 1) (some "zz:x")⟩
        ⟨locationOf (urisplit "zz:x#bad".data)⟩).1 = .ok (.num 1) ∧
    (loadUri 1024 ⟨[(some "zz", ⟨0, .document (.num 1) (some "zz:x")⟩)]⟩ []
        "zz:x#bad").1 = .error .assertionError := by
  refine ⟨rfl, by decide, by decide, by decide, rfl, ?_⟩
  exact load_uri_nonslash_fragment_assertion 1024
    ⟨[(some "zz", ⟨0, .document (.num 1) (some "zz:x")⟩)]⟩ [] "zz:x#bad"
    ⟨0, .document (.num 1) (some "zz:x")⟩ (.num 1) "bad".data
    rfl (by decide) (by decide) (by decide) rfl

/-- Claim C3 counterexample: with a loader that raises on its location
(a DocumentLoader bound elsewhere), two load_uri calls whose URIs
differ only in the fragment invoke the underlying load_resource twice,
because lru_cache never caches a call that raises; the claimed
unconditional at-most-once bound is false. -/
theorem cached_registry_failed_load_not_cached :
    (loadUri 1024 ⟨[(some "x", ⟨0, .document .null (some "nowhere")⟩)]⟩ []
        "x:p#a").2.2
      + (loadUri 1024 ⟨[(some "x", ⟨0, .document .null (some "nowhere")⟩)]⟩
          (loadUri 1024 ⟨[(some "x", ⟨0, .document .null (some "nowhere")⟩)]⟩ []
            "x:p#a").2.1 "x:p#b").2.2 = 2 ∧
    ¬ ((loadUri 1024 ⟨[(some "x", ⟨0, .document .null (some "nowhere")⟩)]⟩ []
        "x:p#a").2.2
      + (loadUri 1024 ⟨[(some "x", ⟨0, .document .null (some "nowhere")⟩)]⟩
          (loadUri 1024 ⟨[(some "x", ⟨0, .document .null (some "nowhere")⟩)]⟩ []
            "x:p#a").2.1 "x:p#b").2.2 ≤ 1) := by
  have h : (loadUri 1024 ⟨[(some "x", ⟨0, .document .null (some "nowhere")⟩)]⟩ []
        "x:p#a").2.2
      + (loadUri 1024 ⟨[(some "x", ⟨0, .document .null (some "nowhere")⟩)]⟩
          (loadUri 1024 ⟨[(some "x", ⟨0, .document .null (some "nowhere")⟩)]⟩ []
            "x:p#a").2.1 "x:p#b").2.2 = 2 := rfl
  exact ⟨h, by rw [h]; omega⟩

/-- Claim C3 amended: on the cache-wrapped registry (capacity 1024),
two load_uri calls from an empty cache whose URIs agree on scheme,
authority and path (so they share the fragment-stripped location, the
cache key) invoke the underlying load_resource exactly once in total
provided that load succeeds — the second call is a cache hit — and a
subsequent call whose fragment-stripped location differs invokes its
loader again. -/
theorem cached_registry_fragment_shared_load (reg : URILoaderRegistry)
    (u1 u2 u3 : String) (l l3 : LoaderInst) (doc : JSON)
    (hreg1 : lookupScheme reg (schemeKey (urisplit u1.data)) = some l)
    (hs : (urisplit u2.data).scheme = (urisplit u1.data).scheme)
    (ha : (urisplit u2.data).authority = (urisplit u1.data).authority)
    (hp : (urisplit u2.data).path = (urisplit u1.data).path)
    (hok : l.loader.load_resource ⟨locationOf (urisplit u1.data)⟩ = .ok doc)
    (hreg3 : lookupScheme reg (schemeKey (urisplit u3.data)) = some l3)
    (hne : locationOf (urisplit u3.data) ≠ locationOf (urisplit u1.data)) :
    (loadUri 1024 reg [] u1).2.2 = 1 ∧
    (loadUri 1024 reg (loadUri 1024 reg [] u1).2.1 u2).2.2 = 0 ∧
    (loadUri 1024 reg [] u1).2.2
      + (loadUri 1024 reg (loadUri 1024 reg [] u1).2.1 u2).2.2 ≤ 1 ∧
    (loadUri 1024 reg (loadUri 1024 reg (loadUri 1024 reg [] u1).2.1 u2).2.1
        u3).2.2 = 1 := by
  have hc1 : cachedLoadFromLoader 1024 [] l ⟨locationOf (urisplit u1.data)⟩
      = (.ok doc, [⟨(l.id, ⟨locationOf (urisplit u1.data)⟩), doc⟩], 1) := by
    unfold cachedLoadFromLoader
    simp only [cacheLookup, hok, List.take_succ_cons, List.take_nil]
  have hload1 : loadUri 1024 reg [] u1
      = (finishLoad (urisplit u1.data).fragment doc,
          [⟨(l.id, ⟨locationOf (urisplit u1.data)⟩), doc⟩], 1) := by
    unfold loadUri
    simp only [hreg1, hc1]
  have hloc2 : locationOf (urisplit u2.data) = locationOf (urisplit u1.data) := by
    unfold locationOf uricompose
    rw [hs, ha, hp]
  have hreg2 : lookupScheme reg (schemeKey (urisplit u2.data)) = some l := by
    unfold schemeKey
    rw [hs]
    exact hreg1
  have hc2 : cachedLoadFromLoader 1024
      [⟨(l.id, ⟨locationOf (urisplit u1.data)⟩), doc⟩] l
      ⟨locationOf (urisplit u2.data)⟩
      = (.ok doc, [⟨(l.id, ⟨locationOf (urisplit u1.data)⟩), doc⟩], 0) := by
    rw [show (⟨locationOf (urisplit u2.data)⟩ : String)
          = ⟨locationOf (urisplit u1.data)⟩ from congrArg String.mk hloc2]
    unfold cachedLoadFromLoader
    simp [cacheLookup, cacheErase]
  have hload2 : loadUri 1024 reg (loadUri 1024 reg [] u1).2.1 u2
      = (finishLoad (urisplit u2.data).fragment doc,
          [⟨(l.id, ⟨locationOf (urisplit u1.data)⟩), doc⟩], 0) := by
    rw [hload1]
    unfold loadUri
    simp only [hreg2, hc2]
  have hkey3 : cacheLookup [⟨(l.id, ⟨locationOf (urisplit u1.data)⟩), doc⟩]
      (l3.id, ⟨locationOf (urisplit u3.data)⟩) = none := by
    unfold cacheLookup
    rw [if_neg]
    · rfl
    · intro hcontra
      have h2 := congrArg Prod.snd hcontra
      simp only at h2
      exact hne (congrArg String.data h2).symm
  have hn3 : (cachedLoadFromLoader 1024
      [⟨(l.id, ⟨locationOf (urisplit u1.data)⟩), doc⟩] l3
      ⟨locationOf (urisplit u3.data)⟩).2.2 = 1 := by
    unfold cachedLoadFromLoader
    rw [hkey3]
    rcases l3.loader.load_resource ⟨locationOf (urisplit u3.data)⟩ with e | v
    · rfl
    · rfl
  refine ⟨by rw [hload1], by rw [hload2], by rw [hload2, hload1]; exact le_refl 1, ?_⟩
  rw [hload2]
  unfold loadUri
  simp only [hreg3]
  rcases hc3 : cachedLoadFromLoader 1024
      [⟨(l.id, ⟨locationOf (urisplit u1.data)⟩), doc⟩] l3
      ⟨locationOf (urisplit u3.data)⟩ with ⟨res3, st3, n3⟩
  have : n3 = 1 := by
    have := hn3
    rw [hc3] at this
    exact this
  subst this
  rcases res3 with e | v
  · rfl
  · rfl

theorem cached_registry_fragment_shared_load_witness :
    ((⟨0, .document (.num 5) (some "x:p")⟩ : LoaderInst)).loader.load_resource
        ⟨locationOf (urisplit "x:p#a".data)⟩ = .ok (.num 5) ∧
    locationOf (urisplit "y:q".data) ≠ locationOf (urisplit "x:p#a".data) ∧
    (loadUri 1024 ⟨[(some "x", ⟨0, .document (.num 5) (some "x:p")⟩),
        (some "y", ⟨1, .document (.num 6) (some "y:q")⟩)]⟩ [] "x:p#a").2.2 = 1 ∧
    (loadUri 1024 ⟨[(some "x", ⟨0, .document (.num 5) (some "x:p")⟩),
        (some "y", ⟨1, .document (.num 6) (some "y:q")⟩)]⟩
      (loadUri 1024 ⟨[(some "x", ⟨0, .document (.num 5) (some "x:p")⟩),
        (some "y", ⟨1, .document (.num 6) (some "y:q")⟩)]⟩ [] "x:p#a").2.1
      "x:p#b").2.2 = 0 ∧
    (loadUri 1024 ⟨[(some "x", ⟨0, .document (.num 5) (some "x:p")⟩),
        (some "y", ⟨1, .document (.num 6) (some "y:q")⟩)]⟩
      (loadUri 1024 ⟨[(some "x", ⟨0, .document (.num 5) (some "x:p")⟩),
          (some "y", ⟨1, .document (.num 6) (some "y:q")⟩)]⟩
        (loadUri 1024 ⟨[(some "x", ⟨0, .document (.num 5) (some "x:p")⟩),
          (some "y", ⟨1, .document (.num 6) (some "y:q")⟩)]⟩ [] "x:p#a").2.1
        "x:p#b").2.1
      "y:q").2.2 = 1 := by
  have h := cached_registry_fragment_shared_load
    ⟨[(some "x", ⟨0, .document (.num 5) (some "x:p")⟩),
      (some "y", ⟨1, .document (.num 6) (some "y:q")⟩)]⟩
    "x:p#a" "x:p#b" "y:q"
    ⟨0, .document (.num 5) (some "x:p")⟩ ⟨1, .document (.num 6) (some "y:q")⟩
    (.num 5) rfl (by decide) (by decide) (by decide) rfl rfl (by decide)
  exact ⟨rfl, by decide, h.1, h.2.1, h.2.2.2⟩

/-- Scope equivalence per the spec's resource identity: two URI strings
denote the same resource exactly when their scheme, authority and path
components agree (the fragment, and in particular its loss, never
participates in resource identity). -/
def scopeEquiv (x y : String) : Prop :=
  (urisplit x.data).scheme = (urisplit y.data).scheme ∧
  (urisplit x.data).authority = (urisplit y.data).authority ∧
  (urisplit x.data).path = (urisplit y.data).path

/-- Joining the empty reference against any base recomposes exactly the
base components with the fragment dropped (RFC 3986 section 5.2.2, the
empty-path no-authority no-scheme branch). -/
theorem urijoin_empty (b : List Char) :
    urijoin b [] =
      uricompose (urisplit b).scheme (urisplit b).authority (urisplit b).path
        (urisplit b).query none := by
  unfold urijoin
  have h1 : urisplit ([] : List Char) = ⟨none, none, [], none, none⟩ := rfl
  rw [h1]
  unfold transformReference
  simp [ite_self]

/-- A URI string splits-recomposes cleanly: recomposing its split
components (fragment dropped) and splitting again returns the same
components with no fragment.  This holds of every well-formed URI
reference; it is the hypothesis under which dropping the fragment
preserves resource identity. -/
def SplitRoundtrips (b : String) : Prop :=
  urisplit (uricompose (urisplit b.data).scheme (urisplit b.data).authority
      (urisplit b.data).path (urisplit b.data).query none)
    = ⟨(urisplit b.data).scheme, (urisplit b.data).authority,
        (urisplit b.data).path, (urisplit b.data).query, none⟩

/-- Auxiliary takeWhile lemma: a prefix wholly satisfying the predicate
passes through. -/
theorem takeWhile_append_all {P : Char → Bool} (xs ys : List Char)
    (h : ∀ c ∈ xs, P c = true) :
    (xs ++ ys).takeWhile P = xs ++ ys.takeWhile P := by
  induction xs with
  | nil => simp
  | cons x t ih =>
    have hx : P x = true := h x (List.mem_cons_self x t)
    simp only [List.cons_append, List.takeWhile_cons, hx, if_true]
    rw [ih (fun c hc => h c (List.mem_cons_of_mem x hc))]

/-- Auxiliary dropWhile lemma: a prefix wholly satisfying the predicate
is consumed. -/
theorem dropWhile_append_all {P : Char → Bool} (xs ys : List Char)
    (h : ∀ c ∈ xs, P c = true) :
    (xs ++ ys).dropWhile P = ys.dropWhile P := by
  induction xs with
  | nil => simp
  | cons x t ih =>
    have hx : P x = true := h x (List.mem_cons_self x t)
    simp only [List.cons_append, List.dropWhile_cons, hx, if_true]
    exact ih (fun c hc => h c (List.mem_cons_of_mem x hc))

/-- Auxiliary dropWhile lemma: when the first list retains a suffix, the
appended list is untouched beyond it. -/
theorem dropWhile_append_ne_nil {P : Char → Bool} (xs ys : List Char)
    (h : xs.dropWhile P ≠ []) :
    (xs ++ ys).dropWhile P = xs.dropWhile P ++ ys := by
  induction xs with
  | nil => simp at h
  | cons x t ih =>
    by_cases hx : P x = true
    · rw [List.dropWhile_cons, if_pos hx] at h
      rw [List.cons_append, List.dropWhile_cons, if_pos hx, ih h,
        List.dropWhile_cons, if_pos hx]
    · rw [List.cons_append, List.dropWhile_cons, if_neg hx,
        List.dropWhile_cons, if_neg hx, List.cons_append]

/-- A list whose takeWhile is empty is left whole by dropWhile. -/
theorem dropWhile_eq_self_of_takeWhile_nil {P : Char → Bool} (l : List Char)
    (h : l.takeWhile P = []) : l.dropWhile P = l := by
  cases l with
  | nil => rfl
  | cons x t =>
    by_cases hx : P x = true
    · rw [List.takeWhile_cons, if_pos hx] at h
      exact absurd h (by simp)
    · rw [List.dropWhile_cons, if_neg hx]

/-- The head surviving dropWhile fails the predicate. -/
theorem head_dropWhile_false {P : Char → Bool} (l : List Char) (c : Char)
    (h : (l.dropWhile P).head? = some c) : P c = false := by
  induction l with
  | nil => simp at h
  | cons x t ih =>
    by_cases hx : P x = true
    · rw [List.dropWhile_cons, if_pos hx] at h
      exact ih h
    · rw [List.dropWhile_cons, if_neg hx] at h
      simp only [List.head?_cons, Option.some.injEq] at h
      subst h
      simpa using hx

/-- Restricting by a weaker predicate first does not change takeWhile. -/
theorem takeWhile_takeWhile_of_imp {P Q : Char → Bool}
    (himp : ∀ c, P c = true → Q c = true) (l : List Char) :
    (l.takeWhile Q).takeWhile P = l.takeWhile P := by
  induction l with
  | nil => rfl
  | cons x t ih =>
    by_cases hq : Q x = true
    · by_cases hp : P x = true
      · simp [List.takeWhile_cons, hq, hp, ih]
      · simp [List.takeWhile_cons, hq, hp]
    · have hp : P x = false := by
        cases hPx : P x
        · rfl
        · exact absurd (himp x hPx) hq
      simp [List.takeWhile_cons, hq, hp]

/-- Restricting by a weaker predicate first preserves the head left by
dropWhile. -/
theorem head_dropWhile_takeWhile {P Q : Char → Bool}
    (himp : ∀ c, P c = true → Q c = true) (l : List Char) (c : Char)
    (h : ((l.takeWhile Q).dropWhile P).head? = some c) :
    (l.dropWhile P).head? = some c := by
  induction l with
  | nil => simp at h
  | cons x t ih =>
    by_cases hq : Q x = true
    · rw [List.takeWhile_cons, if_pos hq] at h
      by_cases hp : P x = true
      · rw [List.dropWhile_cons, if_pos hp] at h
        rw [List.dropWhile_cons, if_pos hp]
        exact ih h
      · rw [List.dropWhile_cons, if_neg hp] at h
        rw [List.dropWhile_cons, if_neg hp]
        exact h
    · rw [List.takeWhile_cons, if_neg hq] at h
      simp at h

/-- Inversion of a takeWhile that produced a cons. -/
theorem takeWhile_cons_inv {P : Char → Bool} (l r : List Char) (c : Char)
    (h : l.takeWhile P = c :: r) :
    ∃ t, l = c :: t ∧ P c = true ∧ t.takeWhile P = r := by
  cases l with
  | nil => simp at h
  | cons x t =>
    by_cases hx : P x = true
    · rw [List.takeWhile_cons, if_pos hx] at h
      injection h with h1 h2
      subst h1
      exact ⟨t, rfl, hx, h2⟩
    · rw [List.takeWhile_cons, if_neg hx] at h
      exact absurd h (by simp)

/-- The query part of a recomposed URI: nothing, or a question mark
followed by the query. -/
def queryPart (q : Option (List Char)) : List Char :=
  match q with
  | some qs => '?' :: qs
  | none => []

/-- splitScheme yields no scheme whenever a colon head after the
candidate run forces the empty candidate. -/
theorem splitScheme_none (s : List Char)
    (h : ∀ rest, s.dropWhile notSchemeDelim = ':' :: rest →
          s.takeWhile notSchemeDelim = []) :
    splitScheme s = (none, s) := by
  unfold splitScheme
  split
  · next rest heq => rw [if_pos (h rest heq)]
  · rfl

/-- splitScheme recovers a scheme followed by a colon. -/
theorem splitScheme_some (sc tail : List Char) (hne : sc ≠ [])
    (hall : ∀ c ∈ sc, notSchemeDelim c = true) :
    splitScheme (sc ++ ':' :: tail) = (some sc, tail) := by
  have hdw : (sc ++ ':' :: tail).dropWhile notSchemeDelim = ':' :: tail := by
    rw [dropWhile_append_all sc (':' :: tail) hall, List.dropWhile_cons,
      if_neg (by decide)]
  have htw : (sc ++ ':' :: tail).takeWhile notSchemeDelim = sc := by
    rw [takeWhile_append_all sc (':' :: tail) hall, List.takeWhile_cons,
      if_neg (by decide), List.append_nil]
  unfold splitScheme
  split
  · next rest heq =>
    rw [hdw] at heq
    injection heq with h1 h2
    rw [if_neg (by rw [htw]; exact hne), htw, h2]
  · next hno =>
    exact absurd hdw (hno tail)

/-- splitScheme finds nothing on a string headed by a slash. -/
theorem splitScheme_slash (rest0 : List Char) :
    splitScheme ('/' :: rest0) = (none, '/' :: rest0) := by
  apply splitScheme_none
  intro rest heq
  rw [List.dropWhile_cons, if_neg (by decide)] at heq
  injection heq with h1 h2
  exact absurd h1 (by decide)

/-- splitAuthority recovers an authority between the double slash and
the next delimiter. -/
theorem splitAuthority_some (a rest2 : List Char)
    (hall : ∀ c ∈ a, notAuthDelim c = true)
    (hstop : rest2.takeWhile notAuthDelim = []) :
    splitAuthority ('/' :: '/' :: (a ++ rest2)) = (some a, rest2) := by
  simp only [splitAuthority]
  rw [takeWhile_append_all a rest2 hall, hstop, List.append_nil,
    dropWhile_append_all a rest2 hall, dropWhile_eq_self_of_takeWhile_nil rest2 hstop]

/-- splitAuthority finds nothing without the double slash. -/
theorem splitAuthority_none2 (s : List Char) (h : ∀ t, s ≠ '/' :: '/' :: t) :
    splitAuthority s = (none, s) := by
  unfold splitAuthority
  split
  · next rest => exact absurd rfl (h rest)
  · rfl

/-- splitQuery recovers a hash-free query after the question mark. -/
theorem splitQuery_some (qs : List Char)
    (hall : ∀ c ∈ qs, (!(c = '#')) = true) :
    splitQuery ('?' :: qs) = (some qs, []) := by
  simp only [splitQuery]
  rw [List.takeWhile_eq_self_iff.mpr hall, List.dropWhile_eq_nil_iff.mpr hall]

/-- The query part never survives a path-delimiter takeWhile. -/
theorem queryPart_stop_path (q : Option (List Char)) :
    (queryPart q).takeWhile notPathDelim = [] := by
  rcases q with _ | qs
  · rfl
  · rw [show queryPart (some qs) = '?' :: qs from rfl, List.takeWhile_cons,
      if_neg (by decide)]

/-- The query part never survives an authority-delimiter takeWhile. -/
theorem queryPart_stop_auth (q : Option (List Char)) :
    (queryPart q).takeWhile notAuthDelim = [] := by
  rcases q with _ | qs
  · rfl
  · rw [show queryPart (some qs) = '?' :: qs from rfl, List.takeWhile_cons,
      if_neg (by decide)]

/-- Path and query stages of urisplit applied to a recomposed
path-plus-query tail. -/
theorem tail_stages (p : List Char) (q : Option (List Char))
    (hp : ∀ c ∈ p, notPathDelim c = true)
    (hq : ∀ qs, q = some qs → ∀ c ∈ qs, (!(c = '#')) = true) :
    (p ++ queryPart q).takeWhile notPathDelim = p ∧
    splitQuery ((p ++ queryPart q).dropWhile notPathDelim) = (q, []) := by
  constructor
  · rw [takeWhile_append_all p _ hp, queryPart_stop_path, List.append_nil]
  · rw [dropWhile_append_all p _ hp,
      dropWhile_eq_self_of_takeWhile_nil _ (queryPart_stop_path q)]
    rcases q with _ | qs
    · rfl
    · exact splitQuery_some qs (hq qs rfl)

/-- The authority takeWhile stops immediately on a recomposed tail whose
path is empty or absolute. -/
theorem authority_stop (p : List Char) (q : Option (List Char))
    (h : p = [] ∨ ∃ t, p = '/' :: t) :
    (p ++ queryPart q).takeWhile notAuthDelim = [] := by
  rcases h with rfl | ⟨t, rfl⟩
  · rw [List.nil_append]
    exact queryPart_stop_auth q
  · rw [List.cons_append, List.takeWhile_cons, if_neg (by decide)]

/-- A recomposed tail never starts with a double slash when its path
does not. -/
theorem no_dslash_append (p : List Char) (q : Option (List Char))
    (h : ∀ t, p ≠ '/' :: '/' :: t) : ∀ t, p ++ queryPart q ≠ '/' :: '/' :: t := by
  intro t hcontra
  rcases p with _ | ⟨c1, p1⟩
  · rcases q with _ | qs
    · simp [queryPart] at hcontra
    · rw [List.nil_append, show queryPart (some qs) = '?' :: qs from rfl] at hcontra
      injection hcontra with h1 h2
      exact absurd h1 (by decide)
  · rcases p1 with _ | ⟨c2, p2⟩
    · rcases q with _ | qs
      · simp [queryPart] at hcontra
      · rw [List.cons_append, List.nil_append,
          show queryPart (some qs) = '?' :: qs from rfl] at hcontra
        injection hcontra with h1 hrest
        injection hrest with h2 h3
        exact absurd h2 (by decide)
    · rw [List.cons_append, List.cons_append] at hcontra
      injection hcontra with h1 hrest
      injection hrest with h2 h3
      subst h1
      subst h2
      exact h p2 rfl

/-- urisplit assembled from the results of its stages. -/
theorem urisplit_eq (s : List Char) (S1 : Option (List Char)) (s1 : List Char)
    (A1 : Option (List Char)) (s2 : List Char) (q1 : Option (List Char))
    (s4 : List Char)
    (h1 : splitScheme s = (S1, s1)) (h2 : splitAuthority s1 = (A1, s2))
    (h3 : splitQuery (s2.dropWhile notPathDelim) = (q1, s4)) :
    urisplit s = ⟨S1, A1, s2.takeWhile notPathDelim, q1, splitFragment s4⟩ := by
  unfold urisplit
  simp only [h1, h2, h3]

/-- The scheme stage finds nothing on a recomposed scheme-less,
authority-less URI whose path obeys the no-scheme shape condition. -/
theorem splitScheme_none_tail (p : List Char) (q : Option (List Char))
    (hshape : ∀ rest, p.dropWhile notSchemeDelim = ':' :: rest →
        p.takeWhile notSchemeDelim = []) :
    splitScheme (p ++ queryPart q) = (none, p ++ queryPart q) := by
  apply splitScheme_none
  intro rest heq
  by_cases hdp : p.dropWhile notSchemeDelim = []
  · rw [dropWhile_append_all p _ (List.dropWhile_eq_nil_iff.mp hdp)] at heq
    rcases q with _ | qs
    · simp [queryPart] at heq
    · rw [show queryPart (some qs) = '?' :: qs from rfl, List.dropWhile_cons,
        if_neg (by decide)] at heq
      injection heq with hh1 hh2
      exact absurd hh1 (by decide)
  · rw [dropWhile_append_ne_nil p _ hdp] at heq
    rcases hdd : p.dropWhile notSchemeDelim with _ | ⟨c, t2⟩
    · exact absurd hdd hdp
    · rw [hdd] at heq
      injection heq with hh1 hh2
      subst hh1
      have htw := hshape t2 hdd
      rcases p with _ | ⟨x, t3⟩
      · simp at hdd
      · have hx : notSchemeDelim x = false := by
          cases hxx : notSchemeDelim x
          · rfl
          · rw [List.takeWhile_cons, if_pos hxx] at htw
            exact absurd htw (by simp)
        rw [List.cons_append, List.takeWhile_cons, if_neg (by simp [hx])]

/-- Splitting a URI recomposed from components that obey the shape
invariants of split output recovers exactly those components. -/
theorem urisplit_uricompose (S A : Option (List Char)) (p : List Char)
    (q : Option (List Char))
    (hS : ∀ sc, S = some sc → sc ≠ [] ∧ ∀ c ∈ sc, notSchemeDelim c = true)
    (hA : ∀ a, A = some a → ∀ c ∈ a, notAuthDelim c = true)
    (hp : ∀ c ∈ p, notPathDelim c = true)
    (hq : ∀ qs, q = some qs → ∀ c ∈ qs, (!(c = '#')) = true)
    (hApath : A ≠ none → p = [] ∨ ∃ t, p = '/' :: t)
    (hAnone : A = none → ∀ t, p ≠ '/' :: '/' :: t)
    (hshape : S = none → A = none →
        ∀ rest, p.dropWhile notSchemeDelim = ':' :: rest →
          p.takeWhile notSchemeDelim = []) :
    urisplit (uricompose S A p q none) = ⟨S, A, p, q, none⟩ := by
  obtain ⟨htw, hsq⟩ := tail_stages p q hp hq
  rcases S with _ | sc
  · rcases A with _ | a
    · have hcomp : uricompose none none p q none = p ++ queryPart q := by
        rcases q with _ | qs <;> simp [uricompose, queryPart]
      rw [hcomp,
        urisplit_eq (p ++ queryPart q) none (p ++ queryPart q) none
          (p ++ queryPart q) q []
          (splitScheme_none_tail p q (hshape rfl rfl))
          (splitAuthority_none2 _ (no_dslash_append p q (hAnone rfl)))
          hsq,
        htw]
      rfl
    · have hcomp : uricompose none (some a) p q none
          = '/' :: '/' :: (a ++ (p ++ queryPart q)) := by
        rcases q with _ | qs <;> simp [uricompose, queryPart]
      have hstop : (p ++ queryPart q).takeWhile notAuthDelim = [] :=
        authority_stop p q (by
          rcases hApath (by simp) with h1 | h1
          · exact Or.inl h1
          · exact Or.inr h1)
      rw [hcomp,
        urisplit_eq _ none ('/' :: '/' :: (a ++ (p ++ queryPart q))) (some a)
          (p ++ queryPart q) q []
          (splitScheme_slash _)
          (splitAuthority_some a _ (hA a rfl) hstop)
          hsq,
        htw]
      rfl
  · obtain ⟨hne, hall⟩ := hS sc rfl
    rcases A with _ | a
    · have hcomp : uricompose (some sc) none p q none
          = sc ++ ':' :: (p ++ queryPart q) := by
        rcases q with _ | qs <;> simp [uricompose, queryPart]
      rw [hcomp,
        urisplit_eq _ (some sc) (p ++ queryPart q) none (p ++ queryPart q) q []
          (splitScheme_some sc _ hne hall)
          (splitAuthority_none2 _ (no_dslash_append p q (hAnone rfl)))
          hsq,
        htw]
      rfl
    · have hcomp : uricompose (some sc) (some a) p q none
          = sc ++ ':' :: ('/' :: '/' :: (a ++ (p ++ queryPart q))) := by
        rcases q with _ | qs <;> simp [uricompose, queryPart]
      have hstop : (p ++ queryPart q).takeWhile notAuthDelim = []  :=
        authority_stop p q (by
          rcases hApath (by simp) with h1 | h1
          · exact Or.inl h1
          · exact Or.inr h1)
      rw [hcomp,
        urisplit_eq _ (some sc) ('/' :: '/' :: (a ++ (p ++ queryPart q))) (some a)
          (p ++ queryPart q) q []
          (splitScheme_some sc _ hne hall)
          (splitAuthority_some a _ (hA a rfl) hstop)
          hsq,
        htw]
      rfl

/-- Inversion: a parsed scheme is the non-empty delimiter-free run. -/
theorem splitScheme_inv_some (s sc s1 : List Char)
    (h : splitScheme s = (some sc, s1)) :
    sc = s.takeWhile notSchemeDelim ∧ sc ≠ [] := by
  unfold splitScheme at h
  split at h
  · next rest heq =>
    split at h
    · simp at h
    · next hcond =>
      injection h with hh1 hh2
      obtain hh1 := Option.some.inj hh1
      subst hh1
      exact ⟨rfl, hcond⟩
  · simp at h

/-- Inversion: a scheme-less parse leaves the input whole and obeys the
no-scheme shape condition. -/
theorem splitScheme_inv_none (s s1 : List Char)
    (h : splitScheme s = (none, s1)) :
    s1 = s ∧ ∀ rest, s.dropWhile notSchemeDelim = ':' :: rest →
      s.takeWhile notSchemeDelim = [] := by
  unfold splitScheme at h
  split at h
  · next rest heq =>
    split at h
    · next hcond =>
      injection h with hh1 hh2
      exact ⟨hh2.symm, fun r hr => hcond⟩
    · simp at h
  · next hno =>
    injection h with hh1 hh2
    exact ⟨hh2.symm, fun rest hr => absurd hr (hno rest)⟩

/-- Inversion: a parsed authority sits between the double slash and its
first delimiter. -/
theorem splitAuthority_inv_some (s1 a s2 : List Char)
    (h : splitAuthority s1 = (some a, s2)) :
    ∃ rest, s1 = '/' :: '/' :: rest ∧ a = rest.takeWhile notAuthDelim ∧
      s2 = rest.dropWhile notAuthDelim := by
  unfold splitAuthority at h
  split at h
  · next rest =>
    injection h with hh1 hh2
    exact ⟨rest, rfl, (Option.some.inj hh1).symm, hh2.symm⟩
  · simp at h

/-- Inversion: an authority-less parse leaves the input whole and the
input does not start with a double slash. -/
theorem splitAuthority_inv_none (s1 s2 : List Char)
    (h : splitAuthority s1 = (none, s2)) :
    s2 = s1 ∧ ∀ t, s1 ≠ '/' :: '/' :: t := by
  unfold splitAuthority at h
  split at h
  · simp at h
  · next hno =>
    injection h with hh1 hh2
    exact ⟨hh2.symm, fun t ht => hno t ht⟩

/-- Inversion: a parsed query is the hash-free run after the question
mark. -/
theorem splitQuery_inv_some (s3 qs s4 : List Char)
    (h : splitQuery s3 = (some qs, s4)) :
    ∃ rest, s3 = '?' :: rest ∧ qs = rest.takeWhile (fun c => !(c = '#')) := by
  unfold splitQuery at h
  split at h
  · next rest =>
    injection h with hh1 hh2
    exact ⟨rest, rfl, (Option.some.inj hh1).symm⟩
  · simp at h

/-- Specialised membership lemma for takeWhile with the predicate fixed
by the membership hypothesis. -/
theorem mem_takeWhile_pred {P : Char → Bool} (l : List Char) (c : Char)
    (h : c ∈ l.takeWhile P) : P c = true :=
  List.mem_takeWhile_imp h

/-- A scheme delimiter-free character is also path delimiter-free. -/
theorem notSchemeDelim_imp_notPathDelim :
    ∀ c, notSchemeDelim c = true → notPathDelim c = true := by
  intro c h
  simp [notSchemeDelim] at h
  simp [notPathDelim]
  tauto

/-- Every URI string splits-recomposes cleanly: SplitRoundtrips is not a
restriction but a theorem about all strings. -/
theorem splitRoundtrips_all (b : String) : SplitRoundtrips b := by
  unfold SplitRoundtrips
  rcases h1 : splitScheme b.data with ⟨S1, s1⟩
  rcases h2 : splitAuthority s1 with ⟨A1, s2⟩
  rcases h3 : splitQuery (s2.dropWhile notPathDelim) with ⟨q1, s4⟩
  have hsplit := urisplit_eq b.data S1 s1 A1 s2 q1 s4 h1 h2 h3
  rw [hsplit]
  show urisplit (uricompose S1 A1 (s2.takeWhile notPathDelim) q1 none)
      = ⟨S1, A1, s2.takeWhile notPathDelim, q1, none⟩
  apply urisplit_uricompose
  · intro sc hsc
    rw [hsc] at h1
    obtain ⟨hsc_eq, hsc_ne⟩ := splitScheme_inv_some b.data sc s1 h1
    subst hsc_eq
    exact ⟨hsc_ne, fun c hc => List.mem_takeWhile_imp hc⟩
  · intro a ha
    rw [ha] at h2
    obtain ⟨rest, hra, haeq, hs2⟩ := splitAuthority_inv_some s1 a s2 h2
    subst haeq
    exact fun c hc => List.mem_takeWhile_imp hc
  · exact fun c hc => List.mem_takeWhile_imp hc
  · intro qs hqs
    rw [hqs] at h3
    obtain ⟨rest, hrq, hqeq⟩ := splitQuery_inv_some _ qs s4 h3
    subst hqeq
    intro c hc
    have hx := mem_takeWhile_pred rest c hc
    simpa using hx
  · intro hA1ne
    rcases hA1 : A1 with _ | a
    · exact absurd hA1 hA1ne
    · rw [hA1] at h2
      obtain ⟨rest, hra, haeq, hs2⟩ := splitAuthority_inv_some s1 a s2 h2
      rcases hs2c : s2 with _ | ⟨c, t⟩
      · left
        rfl
      · have hcfalse : notAuthDelim c = false := by
          apply head_dropWhile_false rest c
          rw [← hs2, hs2c]
          rfl
        have hcor : c = '/' ∨ c = '?' ∨ c = '#' := by
          by_contra hcon
          push_neg at hcon
          simp [notAuthDelim, hcon.1, hcon.2.1, hcon.2.2] at hcfalse
        rcases hcor with rfl | rfl | rfl
        · right
          exact ⟨t.takeWhile notPathDelim, by
            rw [List.takeWhile_cons, if_pos (by decide)]⟩
        · left
          rw [List.takeWhile_cons, if_neg (by decide)]
        · left
          rw [List.takeWhile_cons, if_neg (by decide)]
  · intro hA1none
    rw [hA1none] at h2
    obtain ⟨hs2, hnodd⟩ := splitAuthority_inv_none s1 s2 h2
    intro t hcontra
    obtain ⟨t1, hs2c, hP1, htw1⟩ := takeWhile_cons_inv s2 _ '/' hcontra
    obtain ⟨t2, ht1c, hP2, htw2⟩ := takeWhile_cons_inv t1 _ '/' htw1
    subst hs2
    exact hnodd t2 (by rw [hs2c, ht1c])
  · intro hS1none hA1none
    rw [hS1none] at h1
    rw [hA1none] at h2
    obtain ⟨hs1, hshape0⟩ := splitScheme_inv_none b.data s1 h1
    obtain ⟨hs2, hnodd⟩ := splitAuthority_inv_none s1 s2 h2
    subst hs1
    subst hs2
    intro rest hdrop
    have hhead : ((b.data.takeWhile notPathDelim).dropWhile notSchemeDelim).head?
        = some ':' := by
      rw [hdrop]
      rfl
    have hhead2 := head_dropWhile_takeWhile notSchemeDelim_imp_notPathDelim
      b.data ':' hhead
    rcases hdd : b.data.dropWhile notSchemeDelim with _ | ⟨c, t2⟩
    · rw [hdd] at hhead2
      simp at hhead2
    · rw [hdd] at hhead2
      simp only [List.head?_cons, Option.some.injEq] at hhead2
      subst hhead2
      have htw0 := hshape0 t2 hdd
      rw [takeWhile_takeWhile_of_imp notSchemeDelim_imp_notPathDelim, htw0]

/-- Claim C9: for every Context and URI, follow_uri returns a new
Context whose scope is the urijoin of the current scope with the
followed URI and whose registry is the very same registry value, the
original Context being unchanged (the model is pure, so no Context is
ever mutated); and following the empty URI yields a scope equivalent
(same scheme, authority and path) to the original scope, since the
join with the empty reference recomposes exactly the base components
minus the fragment and every string splits-recomposes cleanly. -/
theorem follow_uri_new_context (ctx : Context) (u : String) :
    (ctx.follow_uri u).scope_uri = ⟨urijoin ctx.scope_uri.data u.data⟩ ∧
    (ctx.follow_uri u).registry = ctx.registry ∧
    scopeEquiv (ctx.follow_uri "").scope_uri ctx.scope_uri := by
  refine ⟨rfl, rfl, ?_⟩
  unfold scopeEquiv Context.follow_uri
  have hdata : (⟨urijoin ctx.scope_uri.data "".data⟩ : String).data
      = urijoin ctx.scope_uri.data [] := rfl
  rw [hdata, urijoin_empty, splitRoundtrips_all ctx.scope_uri]
  exact ⟨rfl, rfl, rfl⟩
